import Mathlib

/-!
# Verification of `examples/1d_signal.py`

Shallow embedding of the signal-generation script: the script computes
`signal = [exp(-0.5 * ((2048.0 - t)/512.0)**2.0) * sin(t/100.) for t in range(4092)]`,
builds the BSON document `{'ex': signal, '_version': 0}`, and writes its
encoding to the file `1d_signal.bson` next to the script.

Floating-point arithmetic is modelled over `ℝ` (the spec states the sample
formula mathematically, "within standard floating-point tolerance").
The BSON wire format and the filesystem/handle behaviour of `open`/`with`
are external to the repository and are modelled from the spec.
-/

/-- The Gaussian envelope factor of a sample, from
`math.exp(-0.5 * (((2048.0 - t)/512.0)**2.0))` in the source. -/
noncomputable def envelope (t : ℕ) : ℝ :=
  Real.exp (-0.5 * (((2048 - (t : ℝ)) / 512) ^ 2))

/-- The sinusoidal carrier factor of a sample, from `math.sin(t/100.)`. -/
noncomputable def carrier (t : ℕ) : ℝ :=
  Real.sin ((t : ℝ) / 100)

/-- One sample of the generated signal, the product of envelope and carrier;
the body of the list comprehension on line 21 of the source. -/
noncomputable def sample (t : ℕ) : ℝ :=
  envelope t * carrier t

/-- The generated signal: `[... for t in range(4092)]` on line 21. -/
noncomputable def signal : List ℝ :=
  (List.range 4092).map sample

theorem signal_length : signal.length = 4092 := by
  simp [signal]

theorem signal_getD (t : ℕ) (h : t < 4092) : signal.getD t 0 = sample t := by
  simp [signal, List.getD_eq_getElem?_getD, List.getElem?_map, List.getElem?_range, h]

/-- C1: for every index `t < 4092`, the sample at position `t` of the generated
signal equals `exp(-0.5 * ((2048 - t)/512)^2) * sin(t/100)`. -/
theorem sample_formula (t : ℕ) (h : t < 4092) :
    signal.getD t 0 =
      Real.exp (-0.5 * (((2048 - (t : ℝ)) / 512) ^ 2)) * Real.sin ((t : ℝ) / 100) := by
  rw [signal_getD t h]; rfl

theorem sample_formula_witness :
    3 < 4092 ∧
      signal.getD 3 0 =
        Real.exp (-0.5 * (((2048 - (3 : ℝ)) / 512) ^ 2)) * Real.sin ((3 : ℝ) / 100) :=
  ⟨by decide, sample_formula 3 (by decide)⟩

/-- C2: the generated signal has length exactly 4092, one sample per index
`t` from 0 to 4091 inclusive. -/
theorem signal_length_eq :
    signal.length = 4092 ∧ ∀ t : ℕ, t < 4092 → signal.getD t 0 = sample t :=
  ⟨signal_length, fun t h => signal_getD t h⟩

theorem signal_length_eq_witness :
    signal.length = 4092 ∧ signal.getD 7 0 = sample 7 :=
  ⟨signal_length_eq.1, signal_length_eq.2 7 (by decide)⟩

/-- C6: the sample at index 2048 equals `sin(20.48)` times an envelope value
of exactly 1: the Gaussian envelope attains its peak value 1 at its center. -/
theorem sample_center :
    envelope 2048 = 1 ∧ signal.getD 2048 0 = Real.sin 20.48 * 1 := by
  have henv : envelope 2048 = 1 := by
    unfold envelope
    norm_num
  refine ⟨henv, ?_⟩
  rw [signal_getD 2048 (by norm_num)]
  unfold sample carrier
  rw [henv, mul_comm]
  norm_num

/-- C9: every sample of the generated signal has absolute value at most 1,
since the Gaussian envelope is at most 1 and `|sin|` is at most 1. -/
theorem sample_abs_le_one (t : ℕ) (h : t < 4092) : |signal.getD t 0| ≤ 1 := by
  rw [signal_getD t h]
  unfold sample
  rw [abs_mul]
  have henv_nonneg : 0 ≤ envelope t := le_of_lt (Real.exp_pos _)
  have henv_le : envelope t ≤ 1 := by
    unfold envelope
    rw [show (1 : ℝ) = Real.exp 0 by rw [Real.exp_zero]]
    apply Real.exp_le_exp.mpr
    nlinarith [sq_nonneg ((2048 - (t : ℝ)) / 512)]
  have hcar : |carrier t| ≤ 1 := Real.abs_sin_le_one _
  calc |envelope t| * |carrier t| ≤ 1 * 1 := by
        apply mul_le_mul _ hcar (abs_nonneg _) zero_le_one
        rwa [abs_of_nonneg henv_nonneg]
    _ = 1 := by norm_num

theorem sample_abs_le_one_witness : 5 < 4092 ∧ |signal.getD 5 0| ≤ 1 :=
  ⟨by decide, sample_abs_le_one 5 (by decide)⟩

/-- C10: the sample at index 0 is exactly 0, since `sin 0 = 0` and the
(positive, finite) envelope factor times 0 is 0. -/
theorem sample_zero : signal.getD 0 0 = 0 ∧ 0 < envelope 0 := by
  constructor
  · rw [signal_getD 0 (by norm_num)]
    unfold sample carrier
    norm_num
  · exact Real.exp_pos _

/-!
## The BSON document

The script encodes the Python dict `{'ex': signal, '_version': 0}`
(line 23). The BSON wire format is provided by the external `bson`
library; it is modelled below from the spec's "standard self-describing
binary document format". Element names are byte strings (lists of
nonzero byte values); a serialized stream is a list of tokens, where a
token is either a single byte or one 8-byte IEEE double, kept abstract
as a value of the sample type `α`. -/

/-- A token of the serialized stream: one byte, or one 8-byte double. -/
inductive Tok (α : Type) where
  | b (n : ℕ)
  | d (x : α)

/-- A decoded BSON value (restricted to the element types the document
uses: double 0x01, int32 0x10, array 0x04). An array decodes to its
index-keyed elements. -/
inductive BVal (α : Type) where
  | dbl (x : α)
  | int (n : ℤ)
  | arr (es : List (List ℕ × BVal α))

/-- The key `'ex'` as UTF-8 bytes. -/
def keyEx : List ℕ := [101, 120]

/-- The key `'_version'` as UTF-8 bytes. -/
def keyVer : List ℕ := [95, 118, 101, 114, 115, 105, 111, 110]

/-- ASCII decimal digits of `n`, used by BSON for array index keys. -/
def decDigits (n : ℕ) : List ℕ :=
  if h : n < 10 then [48 + n] else decDigits (n / 10) ++ [48 + n % 10]
termination_by n
decreasing_by exact Nat.div_lt_self (by omega) (by omega)

/-- The index-keyed elements of the array subdocument holding the samples,
starting at index `start`. -/
def indexedFrom (start : ℕ) : List α → List (List ℕ × BVal α)
  | [] => []
  | x :: xs => (decDigits start, BVal.dbl x) :: indexedFrom (start + 1) xs

/-- Modelled from the spec: the in-memory Document built on line 23,
`{'ex': signal, '_version': 0}` — the signal array under key `"ex"` and the
schema version 0, in dict insertion order. -/
def document (sig : List α) : List (List ℕ × BVal α) :=
  [(keyEx, BVal.arr (indexedFrom 0 sig)), (keyVer, BVal.int 0)]

theorem indexedFrom_length (start : ℕ) (xs : List α) :
    (indexedFrom start xs).length = xs.length := by
  induction xs generalizing start with
  | nil => rfl
  | cons x xs ih => simp [indexedFrom, ih]

theorem indexedFrom_values (start : ℕ) (xs : List α) :
    (indexedFrom start xs).map Prod.snd = xs.map BVal.dbl := by
  induction xs generalizing start with
  | nil => rfl
  | cons x xs ih => simp [indexedFrom, ih]

/-- C3: the document that is serialized contains exactly two top-level
fields: `_version` holding the integer 0, and `ex` holding the array of the
4092 double-precision samples. -/
theorem document_fields :
    (document signal).length = 2 ∧
      (document signal).lookup keyVer = some (BVal.int 0) ∧
      ∃ es, (document signal).lookup keyEx = some (BVal.arr es) ∧
        es.length = 4092 ∧ es.map Prod.snd = signal.map BVal.dbl := by
  refine ⟨rfl, ?_, indexedFrom 0 signal, ?_, ?_, indexedFrom_values 0 signal⟩
  · simp [document, List.lookup, keyEx, keyVer]
  · simp [document, List.lookup, keyEx]
  · rw [indexedFrom_length, signal_length]

/-!
## The BSON encoding

Modelled from the spec: "serializes it using a standard self-describing
binary document format" — the BSON v1.1 grammar restricted to the element
types the document uses. A document is a little-endian int32 byte length,
a list of elements, and a terminating NUL byte; an element is a type byte,
a NUL-terminated name, and a payload; a Python list is encoded as type
0x04 with an embedded document keyed by decimal indices. -/

/-- The byte size a token occupies on the wire (a double is 8 bytes). -/
def tokBytes : Tok α → ℕ
  | Tok.b _ => 1
  | Tok.d _ => 8

/-- Wire byte size of a token stream. -/
def streamBytes (ts : List (Tok α)) : ℕ :=
  (ts.map tokBytes).sum

/-- A 32-bit little-endian integer, as four byte tokens. -/
def int32LE (n : ℕ) : List (Tok α) :=
  [Tok.b (n % 256), Tok.b (n / 256 % 256), Tok.b (n / 65536 % 256),
    Tok.b (n / 16777216 % 256)]

/-- A NUL-terminated element name. -/
def encName (k : List ℕ) : List (Tok α) :=
  k.map Tok.b ++ [Tok.b 0]

/-- A double element: type byte 0x01, name, 8-byte payload. -/
def encDouble (k : List ℕ) (x : α) : List (Tok α) :=
  Tok.b 1 :: (encName k ++ [Tok.d x])

/-- An int32 element: type byte 0x10, name, little-endian payload. -/
def encInt32 (k : List ℕ) (n : ℕ) : List (Tok α) :=
  Tok.b 16 :: (encName k ++ int32LE n)

/-- The element list of the array subdocument: one double element per
sample, keyed by its decimal index starting at `start`. -/
def arrElemsFrom (start : ℕ) : List α → List (Tok α)
  | [] => []
  | x :: xs => encDouble (decDigits start) x ++ arrElemsFrom (start + 1) xs

/-- A document body: its total byte length (including the length field and
the trailing NUL), the elements, a NUL terminator. -/
def encDocBody (elems : List (Tok α)) : List (Tok α) :=
  int32LE (streamBytes elems + 5) ++ elems ++ [Tok.b 0]

/-- An array element: type byte 0x04, name, embedded index-keyed document. -/
def encArray (k : List ℕ) (xs : List α) : List (Tok α) :=
  Tok.b 4 :: (encName k ++ encDocBody (arrElemsFrom 0 xs))

/-- Modelled from the spec: `bson.BSON.encode {ex: sig, _version: 0}` — the
serialized document, elements in dict insertion order. -/
def encode (sig : List α) : List (Tok α) :=
  encDocBody (encArray keyEx sig ++ encInt32 keyVer 0)

/-!
## A compliant BSON decoder -/

/-- Decode a little-endian 32-bit two's-complement value. -/
def decodeI32 (n : ℕ) : ℤ :=
  if n < 2147483648 then (n : ℤ) else (n : ℤ) - 4294967296

/-- Parse a NUL-terminated element name, returning it and the rest. -/
def parseName : List (Tok α) → Option (List ℕ × List (Tok α))
  | Tok.b 0 :: rest => some ([], rest)
  | Tok.b (n + 1) :: rest =>
      (parseName rest).map (fun kr => ((n + 1) :: kr.1, kr.2))
  | _ => none

/-- Parse four bytes as a little-endian int32, returning it and the rest. -/
def parseI32 : List (Tok α) → Option (ℤ × List (Tok α))
  | Tok.b a :: Tok.b b :: Tok.b c :: Tok.b d :: rest =>
      some (decodeI32 (a + 256 * b + 65536 * c + 16777216 * d), rest)
  | _ => none

/-- Parse a document's element list up to and including its terminating
NUL byte, fuelled by the recursion depth. -/
def parseElems : ℕ → List (Tok α) → Option (List (List ℕ × BVal α) × List (Tok α))
  | 0, _ => none
  | _ + 1, Tok.b 0 :: rest => some ([], rest)
  | f + 1, Tok.b 1 :: rest =>
      (parseName rest).bind fun kr =>
        match kr.2 with
        | Tok.d x :: r2 =>
            (parseElems f r2).map fun er => ((kr.1, BVal.dbl x) :: er.1, er.2)
        | _ => none
  | f + 1, Tok.b 16 :: rest =>
      (parseName rest).bind fun kr =>
        (parseI32 kr.2).bind fun vr =>
          (parseElems f vr.2).map fun er => ((kr.1, BVal.int vr.1) :: er.1, er.2)
  | f + 1, Tok.b 4 :: rest =>
      (parseName rest).bind fun kr =>
        (parseI32 kr.2).bind fun _vr =>
          (parseElems f _vr.2).bind fun sub =>
            (parseElems f sub.2).map fun er => ((kr.1, BVal.arr sub.1) :: er.1, er.2)
  | _ + 1, _ => none

/-- Modelled from the spec: "decoding the written document with a compliant
decoder" — parse the length field and the element list, requiring the whole
stream to be consumed. -/
def decode (ts : List (Tok α)) : Option (List (List ℕ × BVal α)) :=
  (parseI32 ts).bind fun hr =>
    (parseElems ts.length hr.2).bind fun er =>
      match er.2 with
      | [] => some er.1
      | _ => none

/-!
## Round-trip lemmas -/

theorem decDigits_ne_zero (n : ℕ) : ∀ b ∈ decDigits n, b ≠ 0 := by
  induction n using Nat.strong_induction_on with
  | _ n ih =>
    intro b hb
    rw [decDigits] at hb
    by_cases h : n < 10
    · simp [h] at hb
      omega
    · simp [h] at hb
      rcases hb with hb | hb
      · exact ih (n / 10) (Nat.div_lt_self (by omega) (by omega)) b hb
      · omega

theorem keyEx_ne_zero : ∀ b ∈ keyEx, b ≠ 0 := by decide

theorem keyVer_ne_zero : ∀ b ∈ keyVer, b ≠ 0 := by decide

theorem parseName_encName (k : List ℕ) :
    (∀ b ∈ k, b ≠ 0) → ∀ rest : List (Tok α),
      parseName (encName k ++ rest) = some (k, rest) := by
  induction k with
  | nil => intro _ rest; simp [encName, parseName]
  | cons b k ih =>
    intro h rest
    have hb : b ≠ 0 := h b (List.mem_cons_self _ _)
    obtain ⟨m, rfl⟩ : ∃ m, b = m + 1 := ⟨b - 1, by omega⟩
    have ihr := ih (fun c hc => h c (List.mem_cons_of_mem _ hc)) rest
    simp only [encName, List.map_cons, List.cons_append, List.append_assoc] at ihr ⊢
    rw [parseName, ihr]
    rfl

theorem parseI32_int32LE (n : ℕ) (rest : List (Tok α)) :
    parseI32 (int32LE n ++ rest) = some (decodeI32 (n % 4294967296), rest) := by
  simp only [int32LE, List.cons_append, List.nil_append, parseI32]
  have harg : n % 256 + 256 * (n / 256 % 256) + 65536 * (n / 65536 % 256) +
      16777216 * (n / 16777216 % 256) = n % 4294967296 := by omega
  rw [harg]

theorem parseElems_encDouble (f : ℕ) (k : List ℕ) (hk : ∀ b ∈ k, b ≠ 0)
    (x : α) (rest : List (Tok α)) :
    parseElems (f + 1) (encDouble k x ++ rest) =
      (parseElems f rest).map fun er => ((k, BVal.dbl x) :: er.1, er.2) := by
  have hname := parseName_encName k hk (Tok.d x :: rest)
  simp only [encDouble, List.cons_append, List.append_assoc, List.singleton_append,
    List.nil_append]
  rw [parseElems, hname]
  rfl

theorem parseElems_encInt32 (f : ℕ) (k : List ℕ) (hk : ∀ b ∈ k, b ≠ 0)
    (n : ℕ) (rest : List (Tok α)) :
    parseElems (f + 1) (encInt32 k n ++ rest) =
      (parseElems f rest).map fun er =>
        ((k, BVal.int (decodeI32 (n % 4294967296))) :: er.1, er.2) := by
  have hname := parseName_encName k hk (int32LE n ++ rest)
  have hi32 := parseI32_int32LE n rest
  simp only [encInt32, List.cons_append, List.append_assoc]
  rw [parseElems, hname]
  simp only [Option.some_bind]
  rw [hi32]
  rfl

theorem parseElems_arrElemsFrom (xs : List α) :
    ∀ f start (rest : List (Tok α)), xs.length < f →
      parseElems f (arrElemsFrom start xs ++ Tok.b 0 :: rest) =
        some (indexedFrom start xs, rest) := by
  induction xs with
  | nil =>
    intro f start rest hf
    obtain ⟨g, rfl⟩ : ∃ g, f = g + 1 := ⟨f - 1, by omega⟩
    simp [arrElemsFrom, indexedFrom, parseElems]
  | cons x xs ih =>
    intro f start rest hf
    obtain ⟨g, rfl⟩ : ∃ g, f = g + 1 := ⟨f - 1, by omega⟩
    rw [arrElemsFrom, List.append_assoc,
      parseElems_encDouble g (decDigits start) (decDigits_ne_zero start) x _,
      ih g (start + 1) rest (by simp at hf; omega)]
    rfl

theorem parseElems_encArray (f : ℕ) (k : List ℕ) (hk : ∀ b ∈ k, b ≠ 0)
    (xs : List α) (rest : List (Tok α)) (hf : xs.length < f) :
    parseElems (f + 1) (encArray k xs ++ rest) =
      (parseElems f rest).map fun er =>
        ((k, BVal.arr (indexedFrom 0 xs)) :: er.1, er.2) := by
  have hname := parseName_encName k hk
    (encDocBody (arrElemsFrom 0 xs) ++ rest)
  have hi32 := parseI32_int32LE (streamBytes (arrElemsFrom 0 xs) + 5)
    (arrElemsFrom 0 xs ++ Tok.b 0 :: rest)
  have hsub := parseElems_arrElemsFrom xs f 0 rest hf
  simp only [encArray, List.cons_append, List.append_assoc]
  rw [parseElems, hname]
  simp only [Option.some_bind]
  simp only [encDocBody, List.append_assoc, List.singleton_append] at hi32 ⊢
  rw [hi32]
  simp only [Option.some_bind]
  rw [hsub]
  rfl

theorem arrElemsFrom_length_ge (xs : List α) :
    ∀ start, xs.length ≤ (arrElemsFrom start xs).length := by
  induction xs with
  | nil => intro start; simp [arrElemsFrom]
  | cons x xs ih =>
    intro start
    have := ih (start + 1)
    simp only [arrElemsFrom, encDouble, encName, List.length_cons,
      List.length_append, List.length_map]
    omega

theorem encode_length_ge (sig : List α) :
    sig.length + 3 ≤ (encode sig).length := by
  have harr := arrElemsFrom_length_ge sig 0
  simp only [encode, encDocBody, encArray, encInt32, encName, int32LE, keyVer,
    List.length_append, List.length_cons, List.length_map, List.length_nil]
  omega

theorem parseElems_body (sig : List α) (F : ℕ) (hF : sig.length + 3 ≤ F) :
    parseElems F (encArray keyEx sig ++ encInt32 keyVer 0 ++ [Tok.b 0]) =
      some (document sig, []) := by
  obtain ⟨f, rfl⟩ : ∃ f, F = f + 1 := ⟨F - 1, by omega⟩
  rw [List.append_assoc,
    parseElems_encArray f keyEx keyEx_ne_zero sig _ (by omega)]
  obtain ⟨g, rfl⟩ : ∃ g, f = g + 1 := ⟨f - 1, by omega⟩
  rw [parseElems_encInt32 g keyVer keyVer_ne_zero 0 _]
  obtain ⟨e, rfl⟩ : ∃ e, g = e + 1 := ⟨g - 1, by omega⟩
  simp [parseElems, document, decodeI32]

/-- Round-trip at the document level: a compliant decode of the encoding of
any sample list recovers exactly the two-field document. -/
theorem decode_encode (sig : List α) :
    decode (encode sig) = some (document sig) := by
  have hlen := encode_length_ge sig
  have h1 : parseI32 (encode sig) =
      some (decodeI32 ((streamBytes (encArray keyEx sig ++ encInt32 keyVer 0) + 5) %
          4294967296),
        encArray keyEx sig ++ encInt32 keyVer 0 ++ [Tok.b 0]) := by
    conv_lhs => rw [encode, encDocBody]
    rw [List.append_assoc]
    exact parseI32_int32LE _ _
  rw [decode, h1]
  simp only [Option.some_bind]
  rw [parseElems_body sig (encode sig).length (by omega)]
  rfl

/-- C4: decoding the encoded document bytes with a compliant BSON decoder
yields a mapping whose `_version` entry is the integer 0 and whose `ex`
entry is the array of the 4092 generated samples, element for element. -/
theorem decode_encode_signal :
    ∃ m, decode (encode signal) = some m ∧
      m.lookup keyVer = some (BVal.int 0) ∧
      ∃ es, m.lookup keyEx = some (BVal.arr es) ∧
        es.length = 4092 ∧ es.map Prod.snd = signal.map BVal.dbl := by
  refine ⟨document signal, decode_encode signal, ?_, indexedFrom 0 signal,
    ?_, ?_, indexedFrom_values 0 signal⟩
  · simp [document, List.lookup, keyEx, keyVer]
  · simp [document, List.lookup, keyEx]
  · rw [indexedFrom_length, signal_length]

/-!
## The file write

Lines 22–23 of the script:
`with open(os.path.join(os.path.dirname(__file__), '1d_signal.bson'), 'bw')`
`as signal_f: signal_f.write(bson.BSON.encode(...))`.
The filesystem and the handle discipline of `open`/`with` belong to the
Python runtime; they are modelled from the spec: a filesystem maps paths to
optional contents, opening for binary write fails exactly when the path is
not writable and otherwise truncates the file and registers a handle, and
the `with` block closes the handle when it exits. -/

/-- A filesystem: each path may hold a token stream. -/
def FileSys : Type := String → Option (List (Tok ℝ))

/-- Runtime state: the filesystem and the currently open handles. -/
structure IOState where
  fs : FileSys
  handles : List String

/-- Replace the contents at path `p`. -/
def setFile (fs : FileSys) (p : String) (v : Option (List (Tok ℝ))) : FileSys :=
  fun q => if q = p then v else fs q

/-- The fixed output file name. -/
def fileName : String := "1d_signal.bson"

/-- `os.path.join(os.path.dirname(__file__), '1d_signal.bson')`: the output
path, sibling to the script's directory `dir`. -/
def targetPath (dir : String) : String :=
  dir ++ "/" ++ fileName

/-- Modelled from the spec: `open(p, 'bw')` — fails (returns `none`) exactly
when the path is not writable; otherwise truncates the file and registers an
open handle. -/
def openWrite (writable : String → Bool) (p : String) (s : IOState) :
    Option IOState :=
  if writable p then some ⟨setFile s.fs p (some []), p :: s.handles⟩ else none

/-- `signal_f.write(bytes)`: store the bytes at the open path. -/
def writeFile (p : String) (bytes : List (Tok ℝ)) (s : IOState) : IOState :=
  ⟨setFile s.fs p (some bytes), s.handles⟩

/-- Closing the handle on `p`, as the `with` block does on exit. -/
def closeFile (p : String) (s : IOState) : IOState :=
  ⟨s.fs, s.handles.erase p⟩

/-- The outcome of one run: the propagated I/O error, if any (the failed
path), and the final runtime state. -/
structure RunResult where
  err : Option String
  state : IOState

/-- One run of the script body (lines 22–23): open the target for binary
write inside a `with` block, write the encoded document, close on exit; a
failed open propagates unhandled, before any effect has taken place. -/
noncomputable def runScript (writable : String → Bool) (dir : String)
    (s : IOState) : RunResult :=
  match openWrite writable (targetPath dir) s with
  | none => ⟨some (targetPath dir), s⟩
  | some s1 =>
      ⟨none, closeFile (targetPath dir)
        (writeFile (targetPath dir) (encode signal) s1)⟩

/-- A writability oracle under which every path is writable. -/
def allWritable : String → Bool := fun _ => true

/-- A writability oracle under which no path is writable. -/
def noneWritable : String → Bool := fun _ => false

/-- An initial state: empty filesystem, no open handles. -/
def emptyState : IOState := ⟨fun _ => none, []⟩

/-- A sample directory for the script's location. -/
def scriptDir : String := "examples"

/-- C7: a successful run's sole effect is creating or overwriting the one
file `1d_signal.bson` in the script's directory with the encoded document;
every other path and the set of open handles are untouched. -/
theorem run_sole_effect (w : String → Bool) (dir : String) (s : IOState)
    (hw : w (targetPath dir) = true) :
    ∃ s2, runScript w dir s = ⟨none, s2⟩ ∧
      s2.fs (targetPath dir) = some (encode signal) ∧
      (∀ p, p ≠ targetPath dir → s2.fs p = s.fs p) ∧
      s2.handles = s.handles := by
  unfold runScript openWrite
  rw [hw]
  simp only [if_true]
  refine ⟨_, rfl, ?_, ?_, ?_⟩
  · simp [closeFile, writeFile, setFile]
  · intro p hp
    simp [closeFile, writeFile, setFile, hp]
  · simp [closeFile, writeFile]

theorem run_sole_effect_witness :
    ∃ s2, runScript allWritable scriptDir emptyState = ⟨none, s2⟩ ∧
      s2.fs (targetPath scriptDir) = some (encode signal) ∧
      (∀ p, p ≠ targetPath scriptDir → s2.fs p = emptyState.fs p) ∧
      s2.handles = emptyState.handles :=
  run_sole_effect allWritable scriptDir emptyState rfl

/-- C5: the run takes no input beyond the implicit constants — any two runs
(from any two prior states) put byte-identical contents in the output file,
and a second run in succession reproduces the first run's file contents. -/
theorem run_deterministic (w : String → Bool) (dir : String)
    (s s' : IOState) (hw : w (targetPath dir) = true) :
    ∃ s1 s2 s3,
      runScript w dir s = ⟨none, s1⟩ ∧
      runScript w dir s' = ⟨none, s2⟩ ∧
      runScript w dir s1 = ⟨none, s3⟩ ∧
      s1.fs (targetPath dir) = some (encode signal) ∧
      s2.fs (targetPath dir) = s1.fs (targetPath dir) ∧
      s3.fs (targetPath dir) = s1.fs (targetPath dir) := by
  have key : ∀ t : IOState, ∃ u, runScript w dir t = ⟨none, u⟩ ∧
      u.fs (targetPath dir) = some (encode signal) := by
    intro t
    unfold runScript openWrite
    rw [hw]
    simp [closeFile, writeFile, setFile]
  obtain ⟨s1, h1, c1⟩ := key s
  obtain ⟨s2, h2, c2⟩ := key s'
  obtain ⟨s3, h3, c3⟩ := key s1
  exact ⟨s1, s2, s3, h1, h2, h3, c1, by rw [c1, c2], by rw [c1, c3]⟩

theorem run_deterministic_witness :
    ∃ s1 s2 s3,
      runScript allWritable scriptDir emptyState = ⟨none, s1⟩ ∧
      runScript allWritable scriptDir emptyState = ⟨none, s2⟩ ∧
      runScript allWritable scriptDir s1 = ⟨none, s3⟩ ∧
      s1.fs (targetPath scriptDir) = some (encode signal) ∧
      s2.fs (targetPath scriptDir) = s1.fs (targetPath scriptDir) ∧
      s3.fs (targetPath scriptDir) = s1.fs (targetPath scriptDir) :=
  run_deterministic allWritable scriptDir emptyState emptyState rfl

/-- C8: the run fails exactly when the target path is not writable; the
failure propagates (as the reported error, naming the failed path) with no
state change at all, and the output handle is released on every exit path,
error path included. -/
theorem run_error_propagation (w : String → Bool) (dir : String)
    (s : IOState) :
    ((runScript w dir s).err ≠ none ↔ w (targetPath dir) = false) ∧
    ((runScript w dir s).err ≠ none → (runScript w dir s).state = s) ∧
    ((runScript w dir s).err ≠ none →
      (runScript w dir s).err = some (targetPath dir)) ∧
    (runScript w dir s).state.handles = s.handles := by
  cases hw : w (targetPath dir) with
  | false =>
    unfold runScript openWrite
    rw [hw]
    simp
  | true =>
    unfold runScript openWrite
    rw [hw]
    simp [closeFile, writeFile]

theorem run_error_propagation_witness :
    ((runScript noneWritable scriptDir emptyState).err ≠ none ↔
      noneWritable (targetPath scriptDir) = false) ∧
    ((runScript noneWritable scriptDir emptyState).err ≠ none →
      (runScript noneWritable scriptDir emptyState).state = emptyState) ∧
    ((runScript noneWritable scriptDir emptyState).err ≠ none →
      (runScript noneWritable scriptDir emptyState).err =
        some (targetPath scriptDir)) ∧
    (runScript noneWritable scriptDir emptyState).state.handles =
      emptyState.handles :=
  run_error_propagation noneWritable scriptDir emptyState
